import Mathlib

/-
Formal model of the SuperiorityQuadraticNN repository (src/LNN.py, src/QNN.py).

Matrices over the rationals stand in for numpy float arrays.  Transcendental
functions of the source (numpy exp and log) and whole activation functions are
abstract parameters of the definitions, so every definition stays computable
and every claim that is parametric in them can be settled exactly.  Decimal
float literals of the source (1e-10, 1e-7, 1e-4, 0.01, 1000) are embedded as
the rationals they denote.
-/

/-- Batched matrix: rows are samples, columns are features, entries rational. -/
abbrev Mat (m n : Nat) : Type := Matrix (Fin m) (Fin n) ℚ

/-- Elementwise (Hadamard) product: the model of numpy elementwise `*`
and of `np.multiply`. -/
def had {m n : Nat} (A B : Mat m n) : Mat m n :=
  Matrix.of fun i j => A i j * B i j

/-- Broadcast addition of a 1 x n bias row onto every row of an m x n matrix,
as numpy broadcasting performs it for `np.dot(a, w) + b`. -/
def addBias {m n : Nat} (Z : Mat m n) (b : Fin n → ℚ) : Mat m n :=
  Matrix.of fun i j => Z i j + b j

/-- Column sums: the model of `np.sum(dz, axis=0)`. -/
def colSum {m n : Nat} (A : Mat m n) : Fin n → ℚ :=
  fun j => ∑ i, A i j

/-- Elementwise 0/1 indicator of nonzero entries: the model of the boolean
array `(a != 0)` as it behaves under numpy multiplication. -/
def indicator {m n : Nat} (A : Mat m n) : Mat m n :=
  Matrix.of fun i j => if A i j ≠ 0 then 1 else 0

/-- Activation kinds of both networks.  The source dispatches by comparing
function references (`self.activation_func[l] == self.softmax` and so on);
an activation kind tag models that dispatch. -/
inductive ActKind : Type
| relu : ActKind
| sigmoid : ActKind
| softmax : ActKind

namespace QNN

/-- One layer of QNN.predict (QNN.py lines 100-104):
zr = a.wr + br, zg = a.wg + bg, zb = (a*a).wb + bb, z = zr*zg + zb,
output = activation(z).  The activation is an abstract parameter. -/
def predict_layer {m d n : Nat} (wr wg wb : Mat d n) (br bg bb : Fin n → ℚ)
    (act : Mat m n → Mat m n) (a : Mat m d) : Mat m n :=
  let zr := addBias (a * wr) br
  let zg := addBias (a * wg) bg
  let zb := addBias (had a a * wb) bb
  act (had zr zg + zb)

/-- One layer of the forward phase of QNN.gradient_bp (QNN.py lines 226-230).
It returns the cached branch values zr and zg together with the layer
output a[l+1], exactly the values the backward phase consumes. -/
def forward_step {m d n : Nat} (wr wg wb : Mat d n) (br bg bb : Fin n → ℚ)
    (act : Mat m n → Mat m n) (a : Mat m d) : Mat m n × Mat m n × Mat m n :=
  let zrl := addBias (a * wr) br
  let zgl := addBias (a * wg) bg
  let zb := addBias (had a a * wb) bb
  let z := had zrl zgl + zb
  (zrl, zgl, act z)

/-- The gradients one quadratic layer contributes, plus the gradient `da`
handed to the previous layer. -/
structure QGrads (m d n : Nat) where
  dwr : Mat d n
  dwg : Mat d n
  dwb : Mat d n
  dbr : Fin n → ℚ
  dbg : Fin n → ℚ
  dbb : Fin n → ℚ
  da : Mat m d

/-- One layer of the backward phase of QNN.gradient_bp (QNN.py lines 240-256),
given the pre-activation gradient dz of this layer, the cached zr and zg of
the forward phase, and the layer input a:
dzr = dz*zg, dzg = dz*zr, dzb = dz;
grad b* = column sums of dz*;
grad wr = aT.dzr, grad wg = aT.dzg, grad wb = square(aT).dzb;
dar = dzr.wrT, dag = dzg.wgT, dab = (dzb.wbT)*a; da = dar + dag + dab + dab. -/
def backward_layer {m d n : Nat} (wr wg wb : Mat d n)
    (a : Mat m d) (zr zg dz : Mat m n) : QGrads m d n :=
  let dzr := had dz zg
  let dzg := had dz zr
  let dzb := dz
  let dar := dzr * wr.transpose
  let dag := dzg * wg.transpose
  let dab := had (dzb * wb.transpose) a
  { dbr := colSum dzr
    dbg := colSum dzg
    dbb := colSum dzb
    dwr := a.transpose * dzr
    dwg := a.transpose * dzg
    dwb := had a.transpose a.transpose * dzb
    da := dar + dag + dab + dab }

/-- The pre-activation gradient rule of the backward phase of QNN.gradient_bp
(QNN.py lines 234-238).  The dispatch is on the layer position only:
the terminal layer (l = L-1) gets the softmax-with-loss shortcut
(a[l+1] - label) / len(sample_point); every other layer gets the sigmoid
formula da * (1 - a[l+1]) * a[l+1], whatever its activation kind is. -/
def backward_dz {m n : Nat} (isTerminal : Bool) (da aNext label : Mat m n)
    (N : ℚ) : Mat m n :=
  if isTerminal then
    Matrix.of fun i j => (aNext i j - label i j) / N
  else
    had (had da (Matrix.of fun i j => 1 - aNext i j)) aNext

end QNN

/-- Refinement target written from the words of the spec, section 4.2:
zr = a.Wr+br, zg = a.Wg+bg, zb = (a∘a).Wb+bb (elementwise square of the
input feeds the third branch); z = zr∘zg + zb; output = activation(z). -/
def quadForwardSpec {m d n : Nat} (wr wg wb : Mat d n) (br bg bb : Fin n → ℚ)
    (act : Mat m n → Mat m n) (a : Mat m d) : Mat m n :=
  act (had (addBias (a * wr) br) (addBias (a * wg) bg)
       + addBias (had a a * wb) bb)

/-- Refinement target written from the words of the spec, section 4.3:
for a non-terminal ReLU layer, dz = upstream_da ∘ [output ≠ 0], the
subgradient at 0 being 0. -/
def reluBackwardSpec {m n : Nat} (da aNext : Mat m n) : Mat m n :=
  Matrix.of fun i j => da i j * (if aNext i j ≠ 0 then 1 else 0)

/-- Refinement target written from the words of the spec, section 4.3:
for a non-terminal Sigmoid layer, dz = upstream_da ∘ output ∘ (1 - output). -/
def sigmoidBackwardSpec {m n : Nat} (da aNext : Mat m n) : Mat m n :=
  Matrix.of fun i j => da i j * aNext i j * (1 - aNext i j)

namespace LNN

/-- The pre-activation gradient rule of the backward loop of LNN.gradient_bp
(LNN.py lines 185-190), dispatching on the activation kind of the layer:
softmax gets the softmax-with-loss shortcut (a[l+1] - label) / len(point),
relu gets da * (a[l+1] != 0), and everything else gets the sigmoid formula
da * (1 - a[l+1]) * a[l+1]. -/
def backward_dz {m n : Nat} (kind : ActKind) (da aNext label : Mat m n)
    (N : ℚ) : Mat m n :=
  match kind with
  | ActKind.softmax => Matrix.of fun i j => (aNext i j - label i j) / N
  | ActKind.relu => had da (indicator aNext)
  | ActKind.sigmoid =>
      had (had da (Matrix.of fun i j => 1 - aNext i j)) aNext

end LNN

/-
Trainer model (LNN.train, LNN.py lines 301-337).  One epoch trains on the
full training set, appends the epoch index and the metric values, and, when
a validation set is supplied, runs the early-stopping update.  The network
evolution itself is abstracted into two oracles vloss and vacc giving the
validation loss and validation accuracy the network would record at each
epoch; the control flow, the counters, and which recorded signal the
early-stopping branch reads are modelled exactly.
-/

/-- The mutable trainer state of LNN.train: the stall counter stop_track,
the best seen validation loss loss_max (initialised to 1000 in the source),
the appended valid_loss and valid_accuracy records, and how many epochs
have executed. -/
structure TrainST where
  stop_track : Nat
  loss_max : ℚ
  valid_loss : List ℚ
  valid_accuracy : List ℚ
  epochs_run : Nat
deriving DecidableEq

namespace LNN

/-- One epoch body of LNN.train with a validation set supplied (LNN.py lines
307-337): record the metrics of epoch i, then the early-stopping update,
which reads valid_loss[-1], the element just appended, and compares it
against loss_max. -/
def train_step (vloss vacc : Nat → ℚ) (i : Nat) (s : TrainST) : TrainST :=
  let recorded : TrainST :=
    { s with
      valid_loss := s.valid_loss ++ [vloss i]
      valid_accuracy := s.valid_accuracy ++ [vacc i]
      epochs_run := s.epochs_run + 1 }
  if recorded.valid_loss.getLastD 0 < s.loss_max then
    { recorded with stop_track := 0
                    loss_max := recorded.valid_loss.getLastD 0 }
  else
    { recorded with stop_track := s.stop_track + 1 }

/-- The epoch loop of LNN.train (LNN.py lines 304-305): for i in
range(epoch), breaking at the top of the body once stop_point <= stop_track.
The remaining epoch budget is the structural fuel. -/
def train_loop (vloss vacc : Nat → ℚ) (stop_point : Nat) :
    Nat → Nat → TrainST → TrainST
  | 0, _, s => s
  | fuel + 1, i, s =>
      if stop_point ≤ s.stop_track then s
      else train_loop vloss vacc stop_point fuel (i + 1)
        (train_step vloss vacc i s)

/-- LNN.train with a validation set supplied, abstracted over the metric
oracles: stop_track starts at 0 and loss_max at 1000 (LNN.py lines 302-303). -/
def train (vloss vacc : Nat → ℚ) (epoch stop_point : Nat) : TrainST :=
  train_loop vloss vacc stop_point epoch 0
    { stop_track := 0, loss_max := 1000, valid_loss := []
      valid_accuracy := [], epochs_run := 0 }

end LNN

/-
Construction model (LNN.initialize_network, LNN.py lines 42-80, and
QNN.initialize_network, QNN.py lines 40-83).  On an activation-count
mismatch the source prints an error message and falls through to the
allocation loop; nothing is raised.  The model records whether the message
was printed and which weight shapes were allocated.
-/

/-- Outcome of network construction: whether the mismatch message was
printed, and the (node_from, node_to) shape of every allocated weight
tensor, in allocation order. -/
structure InitResult where
  errorLogged : Bool
  shapes : List (Nat × Nat)
deriving DecidableEq

namespace LNN

/-- LNN.initialize_network given the input dimension D, the per-layer width
list, and the number of entries of the activation map: prints on mismatch
(errorLogged) and then allocates one weight per layer regardless. -/
def init_network (D : Nat) (neuron_num : List Nat) (act_count : Nat) :
    InitResult :=
  { errorLogged := act_count ≠ neuron_num.length
    shapes := (List.range neuron_num.length).map fun l =>
      ((if l = 0 then D else neuron_num.getD (l - 1) 0), neuron_num.getD l 0) }

end LNN

namespace QNN

/-- QNN.initialize_network: same mismatch handling as LNN, but three weight
tensors (branches r, g, b) are allocated per layer. -/
def init_network (D : Nat) (neuron_num : List Nat) (act_count : Nat) :
    InitResult :=
  { errorLogged := act_count ≠ neuron_num.length
    shapes := (List.range neuron_num.length).flatMap fun l =>
      let shape := ((if l = 0 then D else neuron_num.getD (l - 1) 0),
                    neuron_num.getD l 0)
      [shape, shape, shape] }

end QNN

/-
Cross-entropy loss.  The source computes the loss from the prediction matrix
y = predict(point); the model takes the prediction matrix directly, so both
matrices share one Fin-indexed shape and the claim quantifies over matching
shapes by construction.  numpy log is the abstract parameter logf.
LNN.CRE (LNN.py line 368) adds 1e-10 inside the log; QNN.CRE (QNN.py lines
174-176) adds its local delta = 1e-7.
-/

namespace LNN

/-- LNN.CRE on a prediction/label pair:
-( sum over all entries of t * logf (y + 1e-10) ) / rows. -/
def CRE {m k : Nat} (logf : ℚ → ℚ) (y t : Mat m k) : ℚ :=
  -((∑ i, ∑ j, t i j * logf (y i j + 1 / 10 ^ 10)) / (m : ℚ))

end LNN

namespace QNN

/-- QNN.CRE on a prediction/label pair:
-( sum over all entries of t * logf (y + delta) ) / rows, delta = 1e-7. -/
def CRE {m k : Nat} (logf : ℚ → ℚ) (y t : Mat m k) : ℚ :=
  -((∑ i, ∑ j, t i j * logf (y i j + 1 / 10 ^ 7)) / (m : ℚ))

end QNN

/-- Loss formula written from the words of the spec, section 4.6:
-mean_over_rows( sum_k label_k * log(pred_k + eps) ), for a given eps. -/
def creFormula {m k : Nat} (eps : ℚ) (logf : ℚ → ℚ) (y t : Mat m k) : ℚ :=
  -((∑ i, ∑ j, t i j * logf (y i j + eps)) / (m : ℚ))

/-
Macro precision (LNN.precision, LNN.py lines 382-401).  The source first
takes argmax of labels and predictions; the model starts from the resulting
class-index lists y (predicted) and t (actual).  The per-class loop skips
every row not predicted k, so TP and FP count exactly the rows with
y[n] = k, split by whether t[n] = k.  The division TP / (TP + FP) is a
Python ZeroDivisionError when class k is never predicted; the fallible
computation is modelled with Option, none standing for the raised error.
-/

/-- Rows predicted k and actually k (the TP counter of LNN.precision). -/
def TPcount (k : Nat) (y t : List Nat) : Nat :=
  ((y.zip t).filter fun p => p.1 == k && p.2 == k).length

/-- Rows predicted k but actually not k (the FP counter of LNN.precision). -/
def FPcount (k : Nat) (y t : List Nat) : Nat :=
  ((y.zip t).filter fun p => p.1 == k && !(p.2 == k)).length

namespace LNN

/-- LNN.precision on the class-index lists: sums TP / (TP + FP) over the K
classes and divides by K; none models the ZeroDivisionError raised when a
class is never predicted. -/
def precision (K : Nat) (y t : List Nat) : Option ℚ :=
  ((List.range K).foldl
    (fun acc k =>
      acc.bind fun s =>
        let TP := TPcount k y t
        let FP := FPcount k y t
        if TP + FP = 0 then none
        else some (s + (TP : ℚ) / ((TP : ℚ) + (FP : ℚ))))
    (some 0)).map fun s => s / (K : ℚ)

end LNN

/-- Macro precision written from the words of the spec, section 4.6: class
precision TP/(TP+FP), defined as 0 when a class is never predicted, and the
arithmetic mean across the K classes. -/
def precisionSpec (K : Nat) (y t : List Nat) : ℚ :=
  ((List.range K).map fun k =>
    let TP := TPcount k y t
    let FP := FPcount k y t
    if TP + FP = 0 then 0 else (TP : ℚ) / ((TP : ℚ) + (FP : ℚ))).sum / (K : ℚ)

/-- Per-class precision list of the spec formula, for stating the concrete
example of the claim. -/
def perClassPrecision (K : Nat) (y t : List Nat) : List ℚ :=
  (List.range K).map fun k =>
    let TP := TPcount k y t
    let FP := FPcount k y t
    if TP + FP = 0 then 0 else (TP : ℚ) / ((TP : ℚ) + (FP : ℚ))

/-
Numerical gradient oracle (LNN.gradient_ng, LNN.py lines 108-144, and the
textually identical QNN.gradient_ng, QNN.py lines 180-216).  The parameter
dictionary is modelled as a list of flattened tensors (one inner list per
key, elements in nditer order) and the loss CRE(point, label), a pure
function of the current parameters, as an abstract f.  For every element:
save tmp_val, write tmp_val + h and evaluate f, write tmp_val - h and
evaluate f, record the central difference, write tmp_val back.
-/

/-- Write value v at element i of tensor k of the parameter map. -/
def setElem (ps : List (List ℚ)) (k i : Nat) (v : ℚ) : List (List ℚ) :=
  ps.set k ((ps.getD k []).set i v)

/-- The body of the nditer loop for one parameter element (k, i): returns
the central-difference gradient entry and the parameter map after the
write-back of tmp_val.  h = 1e-4 as in the source. -/
def ngElem (f : List (List ℚ) → ℚ) (ps : List (List ℚ)) (k i : Nat) :
    ℚ × List (List ℚ) :=
  let hstep : ℚ := 1 / 10000
  let tmp := (ps.getD k []).getD i 0
  let p1 := setElem ps k i (tmp + hstep)
  let fxh1 := f p1
  let p2 := setElem p1 k i (tmp - hstep)
  let fxh2 := f p2
  ((fxh1 - fxh2) / (2 * hstep), setElem p2 k i tmp)

/-- The nditer loop over the remaining cnt elements of tensor k, starting at
element index i, threading the parameter map. -/
def ngRow (f : List (List ℚ) → ℚ) (k : Nat) :
    Nat → Nat → List (List ℚ) → List ℚ × List (List ℚ)
  | 0, _, ps => ([], ps)
  | cnt + 1, i, ps =>
      let r := ngElem f ps k i
      let rest := ngRow f k cnt (i + 1) r.2
      (r.1 :: rest.1, rest.2)

/-- The outer loop over the remaining kcnt parameter keys, starting at key
index k, threading the parameter map and collecting the gradient tensors. -/
def ngAll (f : List (List ℚ) → ℚ) :
    Nat → Nat → List (List ℚ) → List (List ℚ) × List (List ℚ)
  | 0, _, ps => ([], ps)
  | kcnt + 1, k, ps =>
      let row := ngRow f k (ps.getD k []).length 0 ps
      let rest := ngAll f kcnt (k + 1) row.2
      (row.1 :: rest.1, rest.2)

namespace LNN

/-- LNN.gradient_ng: the numerical gradient of every parameter element, and
the parameter map as it stands after the call returns. -/
def gradient_ng (f : List (List ℚ) → ℚ) (ps : List (List ℚ)) :
    List (List ℚ) × List (List ℚ) :=
  ngAll f ps.length 0 ps

end LNN

namespace QNN

/-- QNN.gradient_ng, textually identical to LNN.gradient_ng in the source. -/
def gradient_ng (f : List (List ℚ) → ℚ) (ps : List (List ℚ)) :
    List (List ℚ) × List (List ℚ) :=
  ngAll f ps.length 0 ps

end QNN

/-
Softmax (LNN.softmax, LNN.py lines 95-104, and the textually identical
QNN.softmax, QNN.py lines 139-148).  numpy in-place subtraction `x -= max`
overwrites the argument buffer; in the 2-D case the subtraction happens
through the transposed view x.T, which aliases the caller array, and the
column maxima of x.T are the row maxima of the original.  Each model
returns (return value, content of the argument array after the call).
numpy exp is the abstract parameter expf.
-/

/-- Maximum of a rational list: the model of np.max on a nonempty array. -/
def maxL (l : List ℚ) : ℚ := l.foldl max (l.headD 0)

namespace LNN

/-- LNN.softmax on a 1-D input: x -= np.max(x) mutates the caller array,
then exp and normalisation build a fresh array that is returned.
First component: return value; second: the argument after the call. -/
def softmax1 (expf : ℚ → ℚ) (x : List ℚ) : List ℚ × List ℚ :=
  let x2 := x.map fun v => v - maxL x
  let e := x2.map expf
  (e.map fun v => v / e.sum, x2)

/-- LNN.softmax on a 2-D input: through the transposed view, every row of
the caller array gets its own maximum subtracted in place; the returned
softmax matrix is a fresh array.  First component: return value; second:
the argument after the call. -/
def softmax2 (expf : ℚ → ℚ) (x : List (List ℚ)) :
    List (List ℚ) × List (List ℚ) :=
  let x2 := x.map fun row => row.map fun v => v - maxL row
  (x2.map fun row =>
      let e := row.map expf
      e.map fun v => v / e.sum,
   x2)

end LNN

/-- Concrete validation-loss oracle used to witness the early-stopping
result: one improving epoch (loss 5 against the initial 1000), then the
loss worsens to 10 forever. -/
def vlossW : Nat → ℚ := fun i => if i = 0 then 5 else 10

/-
Theorems.  Each claim of the specification gets one theorem below; helper
lemmas carry no claim by themselves.
-/

/-- Claim C3: for every input batch a and every quadratic layer, QNN.predict
and the forward phase of QNN.gradient_bp compute zr = a.Wr+br, zg = a.Wg+bg,
zb = (a∘a).Wb+bb (the third branch is fed by the elementwise square of the
layer input), combine them as z = zr∘zg + zb, and output activation(z); the
cached branch values of the backward engine are those same zr and zg. -/
theorem QNN_forward_layer_matches_spec {m d n : Nat} (wr wg wb : Mat d n)
    (br bg bb : Fin n → ℚ) (act : Mat m n → Mat m n) (a : Mat m d) :
    QNN.predict_layer wr wg wb br bg bb act a
      = quadForwardSpec wr wg wb br bg bb act a ∧
    (QNN.forward_step wr wg wb br bg bb act a).2.2
      = quadForwardSpec wr wg wb br bg bb act a ∧
    (QNN.forward_step wr wg wb br bg bb act a).1 = addBias (a * wr) br ∧
    (QNN.forward_step wr wg wb br bg bb act a).2.1 = addBias (a * wg) bg :=
  ⟨rfl, rfl, rfl, rfl⟩

/-- Claim C1: for every quadratic layer processed by QNN.gradient_bp, given
the upstream gradient dz for the layer, the computed gradients are
dzr = dz∘zg, dzg = dz∘zr, dzb = dz; dWr = inputT.dzr, dWg = inputT.dzg,
dWb = (input∘input)T.dzb; each bias gradient is the column sum of the
corresponding dz branch; and the gradient passed to the previous layer is
dzr.WrT + dzg.WgT + 2 (dzb.WbT)∘input, the squared-input branch doubled. -/
theorem QNN_backward_layer_matches_spec {m d n : Nat} (wr wg wb : Mat d n)
    (a : Mat m d) (zr zg dz : Mat m n) :
    (QNN.backward_layer wr wg wb a zr zg dz).dwr = a.transpose * had dz zg ∧
    (QNN.backward_layer wr wg wb a zr zg dz).dwg = a.transpose * had dz zr ∧
    (QNN.backward_layer wr wg wb a zr zg dz).dwb
      = (had a a).transpose * dz ∧
    (QNN.backward_layer wr wg wb a zr zg dz).dbr = colSum (had dz zg) ∧
    (QNN.backward_layer wr wg wb a zr zg dz).dbg = colSum (had dz zr) ∧
    (QNN.backward_layer wr wg wb a zr zg dz).dbb = colSum dz ∧
    (QNN.backward_layer wr wg wb a zr zg dz).da
      = had dz zg * wr.transpose + had dz zr * wg.transpose
        + (2 : ℚ) • had (dz * wb.transpose) a := by
  have htr : had a.transpose a.transpose = (had a a).transpose := by
    ext i j
    simp [had, Matrix.transpose_apply]
  refine ⟨rfl, rfl, ?_, rfl, rfl, rfl, ?_⟩
  · show had a.transpose a.transpose * dz = (had a a).transpose * dz
    rw [htr]
  · show had dz zg * wr.transpose + had dz zr * wg.transpose
        + had (dz * wb.transpose) a + had (dz * wb.transpose) a
      = had dz zg * wr.transpose + had dz zr * wg.transpose
        + (2 : ℚ) • had (dz * wb.transpose) a
    ext i j
    simp only [Matrix.add_apply, Matrix.smul_apply, smul_eq_mul]
    ring

/-- Counterexample to claim C4 as stated: the QNN backward engine has no
ReLU case at all; a non-terminal layer gets the sigmoid formula whatever
its activation kind, so at upstream gradient [[1]] and output [[1/2]] it
produces [[1/4]] where the claimed ReLU rule gives [[1]]. -/
theorem QNN_backward_hidden_not_relu_mask :
    QNN.backward_dz false (!![(1 : ℚ)]) (!![(1 : ℚ) / 2]) (!![(0 : ℚ)]) 1
      ≠ reluBackwardSpec (!![(1 : ℚ)]) (!![(1 : ℚ) / 2]) := by
  intro h
  have h0 := congrFun (congrFun h 0) 0
  norm_num [QNN.backward_dz, had, reluBackwardSpec] at h0

/-- Claim C4, amended: in the LNN backward engine a non-terminal ReLU layer
gets dz = upstream_da ∘ [output ≠ 0] (subgradient at 0 being 0); the QNN
backward engine instead applies the sigmoid formula
dz = upstream_da ∘ output ∘ (1 - output) to every non-terminal layer,
regardless of the activation kind of the layer. -/
theorem relu_backward_rules :
    (∀ (m n : Nat) (da aNext label : Mat m n) (N : ℚ),
       LNN.backward_dz ActKind.relu da aNext label N
         = reluBackwardSpec da aNext) ∧
    (∀ (m n : Nat) (da aNext label : Mat m n) (N : ℚ),
       QNN.backward_dz false da aNext label N
         = sigmoidBackwardSpec da aNext) := by
  constructor
  · intro m n da aNext label N
    ext i j
    simp [LNN.backward_dz, reluBackwardSpec, had, indicator]
  · intro m n da aNext label N
    ext i j
    simp only [QNN.backward_dz, if_neg Bool.false_ne_true, had,
      sigmoidBackwardSpec, Matrix.of_apply]
    ring

/-- The epoch body in closed form: the early-stopping branch compares the
freshly appended validation loss, vloss i, against loss_max. -/
theorem train_step_eq (vloss vacc : Nat → ℚ) (i : Nat) (s : TrainST) :
    LNN.train_step vloss vacc i s =
      if vloss i < s.loss_max then
        { stop_track := 0, loss_max := vloss i
          valid_loss := s.valid_loss ++ [vloss i]
          valid_accuracy := s.valid_accuracy ++ [vacc i]
          epochs_run := s.epochs_run + 1 }
      else
        { stop_track := s.stop_track + 1, loss_max := s.loss_max
          valid_loss := s.valid_loss ++ [vloss i]
          valid_accuracy := s.valid_accuracy ++ [vacc i]
          epochs_run := s.epochs_run + 1 } := by
  unfold LNN.train_step
  simp only [List.getLastD_concat]

/-- Once the stall counter has reached the patience threshold, the loop
breaks immediately and returns the state unchanged. -/
theorem train_loop_halted (vloss vacc : Nat → ℚ) (sp fuel i : Nat)
    (s : TrainST) (h : sp ≤ s.stop_track) :
    LNN.train_loop vloss vacc sp fuel i s = s := by
  cases fuel with
  | zero => rfl
  | succ f => simp [LNN.train_loop, h]

/-- Stall phase: from a state whose stall counter is k short of the
threshold, k consecutive non-improving epochs freeze loss_max, raise the
counter to the threshold, and run exactly k more epochs. -/
theorem train_loop_stall (vloss vacc : Nat → ℚ) (sp : Nat) :
    ∀ (k fuel i : Nat) (s : TrainST),
      (∀ j, i ≤ j → j < i + k → s.loss_max ≤ vloss j) →
      s.stop_track + k = sp → k ≤ fuel →
      (LNN.train_loop vloss vacc sp fuel i s).epochs_run
        = s.epochs_run + k ∧
      (LNN.train_loop vloss vacc sp fuel i s).loss_max = s.loss_max ∧
      (LNN.train_loop vloss vacc sp fuel i s).stop_track = sp := by
  intro k
  induction k with
  | zero =>
    intro fuel i s hstall hsp hfuel
    rw [train_loop_halted vloss vacc sp fuel i s (by omega)]
    exact ⟨by omega, rfl, by omega⟩
  | succ k ih =>
    intro fuel i s hstall hsp hfuel
    cases fuel with
    | zero => omega
    | succ f =>
      have hbr : ¬ sp ≤ s.stop_track := by omega
      have hni : ¬ vloss i < s.loss_max := by
        have := hstall i (le_refl i) (by omega)
        exact not_lt.mpr this
      have hstep : LNN.train_step vloss vacc i s =
          { stop_track := s.stop_track + 1, loss_max := s.loss_max
            valid_loss := s.valid_loss ++ [vloss i]
            valid_accuracy := s.valid_accuracy ++ [vacc i]
            epochs_run := s.epochs_run + 1 } := by
        rw [train_step_eq, if_neg hni]
      have hrec : LNN.train_loop vloss vacc sp (f + 1) i s
          = LNN.train_loop vloss vacc sp f (i + 1)
              (LNN.train_step vloss vacc i s) := by
        simp only [LNN.train_loop, if_neg hbr]
      rw [hrec, hstep]
      have hmain := ih f (i + 1)
        { stop_track := s.stop_track + 1, loss_max := s.loss_max
          valid_loss := s.valid_loss ++ [vloss i]
          valid_accuracy := s.valid_accuracy ++ [vacc i]
          epochs_run := s.epochs_run + 1 }
        (by intro j h1 h2; exact hstall j (by omega) (by omega))
        (by
          show s.stop_track + 1 + k = sp
          omega)
        (by omega)
      refine ⟨?_, ?_, hmain.2.2⟩
      · rw [hmain.1]
        show s.epochs_run + 1 + k = s.epochs_run + (k + 1)
        omega
      · rw [hmain.2.1]

/-- Improving phase: from a state whose stall counter is 0, a run of mImp
strictly improving epochs keeps the counter at 0, moves loss_max to the
last of the improving losses, and leaves the loop to continue with the
remaining budget. -/
theorem train_loop_improve (vloss vacc : Nat → ℚ) (sp : Nat)
    (hsp : 1 ≤ sp) :
    ∀ (mImp fuel i : Nat) (s : TrainST),
      1 ≤ mImp → mImp ≤ fuel →
      vloss i < s.loss_max →
      (∀ j, i ≤ j → j + 1 < i + mImp → vloss (j + 1) < vloss j) →
      s.stop_track = 0 →
      ∃ s2 : TrainST,
        LNN.train_loop vloss vacc sp fuel i s
          = LNN.train_loop vloss vacc sp (fuel - mImp) (i + mImp) s2 ∧
        s2.stop_track = 0 ∧ s2.loss_max = vloss (i + mImp - 1) ∧
        s2.epochs_run = s.epochs_run + mImp := by
  intro mImp
  induction mImp with
  | zero => intro fuel i s h1; omega
  | succ k ih =>
    intro fuel i s h1 hfuel himp hdec hst
    cases fuel with
    | zero => omega
    | succ f =>
      have hbr : ¬ sp ≤ s.stop_track := by omega
      have hstep : LNN.train_step vloss vacc i s =
          { stop_track := 0, loss_max := vloss i
            valid_loss := s.valid_loss ++ [vloss i]
            valid_accuracy := s.valid_accuracy ++ [vacc i]
            epochs_run := s.epochs_run + 1 } := by
        rw [train_step_eq, if_pos himp]
      have hrec : LNN.train_loop vloss vacc sp (f + 1) i s
          = LNN.train_loop vloss vacc sp f (i + 1)
              (LNN.train_step vloss vacc i s) := by
        simp only [LNN.train_loop, if_neg hbr]
      rcases Nat.eq_zero_or_pos k with hk | hk
      · subst hk
        refine ⟨{ stop_track := 0, loss_max := vloss i
                  valid_loss := s.valid_loss ++ [vloss i]
                  valid_accuracy := s.valid_accuracy ++ [vacc i]
                  epochs_run := s.epochs_run + 1 }, ?_, rfl, ?_, ?_⟩
        · rw [hrec, hstep, show f + 1 - (0 + 1) = f from by omega,
            show i + (0 + 1) = i + 1 from by omega]
        · show vloss i = vloss (i + (0 + 1) - 1)
          congr 1
        · show s.epochs_run + 1 = s.epochs_run + (0 + 1)
          omega
      · have hrest := ih f (i + 1)
          { stop_track := 0, loss_max := vloss i
            valid_loss := s.valid_loss ++ [vloss i]
            valid_accuracy := s.valid_accuracy ++ [vacc i]
            epochs_run := s.epochs_run + 1 }
          (by omega) (by omega)
          (by
            show vloss (i + 1) < vloss i
            have := hdec i (le_refl i) (by omega)
            exact this)
          (by intro j h1 h2; exact hdec j (by omega) (by omega))
          rfl
        rcases hrest with ⟨s2, heq, h2, h3, h4⟩
        have h4a : s2.epochs_run = s.epochs_run + 1 + k := h4
        have hfa : f - k = f + 1 - (k + 1) := by omega
        have hia : i + 1 + k = i + (k + 1) := by omega
        refine ⟨s2, ?_, h2, ?_, by omega⟩
        · rw [hrec, hstep, heq, hfa, hia]
        · rw [h3]
          congr 1
          omega

/-- Accuracy independence: two runs whose validation-loss oracle agrees but
whose accuracy oracle differs arbitrarily halt identically, with identical
counters, best loss and loss records. -/
theorem train_loop_acc_indep (vloss vacc vacc2 : Nat → ℚ) (sp : Nat) :
    ∀ (fuel i : Nat) (s s2 : TrainST),
      s.stop_track = s2.stop_track → s.loss_max = s2.loss_max →
      s.valid_loss = s2.valid_loss → s.epochs_run = s2.epochs_run →
      (LNN.train_loop vloss vacc sp fuel i s).stop_track
        = (LNN.train_loop vloss vacc2 sp fuel i s2).stop_track ∧
      (LNN.train_loop vloss vacc sp fuel i s).loss_max
        = (LNN.train_loop vloss vacc2 sp fuel i s2).loss_max ∧
      (LNN.train_loop vloss vacc sp fuel i s).valid_loss
        = (LNN.train_loop vloss vacc2 sp fuel i s2).valid_loss ∧
      (LNN.train_loop vloss vacc sp fuel i s).epochs_run
        = (LNN.train_loop vloss vacc2 sp fuel i s2).epochs_run := by
  intro fuel
  induction fuel with
  | zero =>
    intro i s s2 h1 h2 h3 h4
    exact ⟨h1, h2, h3, h4⟩
  | succ f ih =>
    intro i s s2 h1 h2 h3 h4
    by_cases hbr : sp ≤ s.stop_track
    · have hbr2 : sp ≤ s2.stop_track := by omega
      simp only [LNN.train_loop, if_pos hbr, if_pos hbr2]
      exact ⟨h1, h2, h3, h4⟩
    · have hbr2 : ¬ sp ≤ s2.stop_track := by omega
      simp only [LNN.train_loop, if_neg hbr, if_neg hbr2]
      rw [train_step_eq, train_step_eq, ← h2, h1, h3, h4]
      by_cases hc : vloss i < s.loss_max
      · rw [if_pos hc, if_pos hc]
        exact ih (i + 1) _ _ rfl rfl rfl rfl
      · rw [if_neg hc, if_neg hc]
        exact ih (i + 1) _ _ rfl rfl rfl rfl

/-- Claim C5: with a validation set supplied, the stall counter resets and
the best value updates exactly when the validation loss of the epoch
strictly improves the best seen value, and increments otherwise; the
monitored signal is the validation loss only, never the accuracy; and for
a loss sequence that improves during the first mImp epochs and then never
improves for stop_point consecutive epochs, the trainer halts at exactly
epoch mImp + stop_point with the best loss frozen at the last improvement. -/
theorem LNN_train_early_stopping :
    (∀ (vloss vacc : Nat → ℚ) (i : Nat) (s : TrainST),
       ((LNN.train_step vloss vacc i s).stop_track = 0 ∧
        (LNN.train_step vloss vacc i s).loss_max = vloss i) ↔
        vloss i < s.loss_max) ∧
    (∀ (vloss vacc vacc2 : Nat → ℚ) (epoch sp : Nat),
       (LNN.train vloss vacc epoch sp).stop_track
          = (LNN.train vloss vacc2 epoch sp).stop_track ∧
       (LNN.train vloss vacc epoch sp).loss_max
          = (LNN.train vloss vacc2 epoch sp).loss_max ∧
       (LNN.train vloss vacc epoch sp).valid_loss
          = (LNN.train vloss vacc2 epoch sp).valid_loss ∧
       (LNN.train vloss vacc epoch sp).epochs_run
          = (LNN.train vloss vacc2 epoch sp).epochs_run) ∧
    (∀ (vloss vacc : Nat → ℚ) (mImp sp epoch : Nat),
       1 ≤ mImp → 1 ≤ sp → mImp + sp ≤ epoch →
       vloss 0 < 1000 →
       (∀ j, j + 1 < mImp → vloss (j + 1) < vloss j) →
       (∀ j, mImp ≤ j → j < mImp + sp → vloss (mImp - 1) ≤ vloss j) →
       (LNN.train vloss vacc epoch sp).epochs_run = mImp + sp ∧
       (LNN.train vloss vacc epoch sp).loss_max = vloss (mImp - 1) ∧
       (LNN.train vloss vacc epoch sp).stop_track = sp) := by
  refine ⟨?_, ?_, ?_⟩
  · intro vloss vacc i s
    rw [train_step_eq]
    by_cases hc : vloss i < s.loss_max
    · simp [if_pos hc, hc]
    · simp [if_neg hc, hc]
  · intro vloss vacc vacc2 epoch sp
    exact train_loop_acc_indep vloss vacc vacc2 sp epoch 0 _ _
      rfl rfl rfl rfl
  · intro vloss vacc mImp sp epoch hm hsp hbudget h0 hdec hstall
    unfold LNN.train
    have himpr := train_loop_improve vloss vacc sp hsp mImp epoch 0
      { stop_track := 0, loss_max := 1000, valid_loss := []
        valid_accuracy := [], epochs_run := 0 }
      hm (by omega) (by simpa using h0)
      (by intro j h1 h2; exact hdec j (by omega)) rfl
    rcases himpr with ⟨s2, heq, hst2, hlm2, her2⟩
    simp only [Nat.zero_add] at heq hlm2
    have her2a : s2.epochs_run = mImp := by
      rw [her2]
      show 0 + mImp = mImp
      omega
    rw [heq]
    have hst := train_loop_stall vloss vacc sp sp (epoch - mImp) mImp s2
      (by
        intro j h1 h2
        rw [hlm2]
        exact hstall j (by omega) (by omega))
      (by omega) (by omega)
    refine ⟨?_, ?_, hst.2.2⟩
    · rw [hst.1, her2a]
    · rw [hst.2.1, hlm2]

/-- Witness for the early-stopping theorem: loss 5 at epoch 0, then 10
forever, patience 2, budget 10: the run halts after exactly 3 epochs with
best loss 5 and the stall counter at the threshold. -/
theorem LNN_train_early_stopping_witness :
    (1 ≤ 1 ∧ 1 ≤ 2 ∧ 1 + 2 ≤ 10 ∧ vlossW 0 < 1000 ∧
     (∀ j, j + 1 < 1 → vlossW (j + 1) < vlossW j) ∧
     (∀ j, 1 ≤ j → j < 1 + 2 → vlossW (1 - 1) ≤ vlossW j)) ∧
    ((LNN.train vlossW (fun _ => 0) 10 2).epochs_run = 1 + 2 ∧
     (LNN.train vlossW (fun _ => 0) 10 2).loss_max = vlossW (1 - 1) ∧
     (LNN.train vlossW (fun _ => 0) 10 2).stop_track = 2) := by
  have hv0 : vlossW 0 < 1000 := by norm_num [vlossW]
  have hd : ∀ j, j + 1 < 1 → vlossW (j + 1) < vlossW j := by
    intro j hj
    omega
  have hs : ∀ j, 1 ≤ j → j < 1 + 2 → vlossW (1 - 1) ≤ vlossW j := by
    intro j h1 h2
    have hne : j ≠ 0 := by omega
    simp only [vlossW, if_neg hne]
    norm_num
  exact ⟨⟨by norm_num, by norm_num, by norm_num, hv0, hd, hs⟩,
    LNN_train_early_stopping.2.2 vlossW (fun _ => 0) 1 2 10
      (by norm_num) (by norm_num) (by norm_num) hv0 hd hs⟩

/-- Claim C6, evaluated at the failing input: with two layers of widths
[3, 2] on input dimension 2 but only one activation entry, both
initialisers merely flag the mismatch (a printed message in the source)
and proceed to allocate every weight tensor anyway: two weights for LNN,
six (three branches per layer) for QNN.  Nothing is raised. -/
theorem init_network_logs_and_allocates :
    (LNN.init_network 2 [3, 2] 1).errorLogged = true ∧
    (LNN.init_network 2 [3, 2] 1).shapes = [(2, 3), (3, 2)] ∧
    (QNN.init_network 2 [3, 2] 1).errorLogged = true ∧
    (QNN.init_network 2 [3, 2] 1).shapes
      = [(2, 3), (2, 3), (2, 3), (3, 2), (3, 2), (3, 2)] := by
  refine ⟨by decide, by decide, by decide, by decide⟩

/-- Counterexample to claim C7 as stated: QNN.CRE does not use eps = 1e-10;
its epsilon is 1e-7, so already on the one-entry prediction 0 with label 1
(with the log parameter instantiated at the identity) the loss differs
from the claimed formula at eps = 1e-10. -/
theorem QNN_CRE_eps_mismatch :
    QNN.CRE id (!![(0 : ℚ)]) (!![(1 : ℚ)])
      ≠ creFormula (1 / 10 ^ 10) id (!![(0 : ℚ)]) (!![(1 : ℚ)]) := by
  simp only [QNN.CRE, creFormula, Fin.sum_univ_one, id_eq,
    Matrix.cons_val_zero, Matrix.cons_val_fin_one]
  norm_num

/-- Claim C7, amended: the loss is
-mean_over_rows( sum_k label_k * log(pred_k + eps) ) with eps = 1e-10 in
LNN.CRE but eps = 1e-7 in QNN.CRE; consequently, with the LNN epsilon, a
perfect one-hot prediction costs -log(1 + 1e-10), about 0, and a uniform
prediction over K classes costs -log(1/K + 1e-10), about log K. -/
theorem CRE_formulas :
    (∀ (m k : Nat) (logf : ℚ → ℚ) (y t : Mat m k),
       LNN.CRE logf y t = creFormula (1 / 10 ^ 10) logf y t) ∧
    (∀ (m k : Nat) (logf : ℚ → ℚ) (y t : Mat m k),
       QNN.CRE logf y t = creFormula (1 / 10 ^ 7) logf y t) ∧
    (∀ (m k : Nat) (logf : ℚ → ℚ) (t : Mat m k), 0 < m →
       (∀ i j, t i j = 0 ∨ t i j = 1) → (∀ i, ∑ j, t i j = 1) →
       LNN.CRE logf t t = -logf (1 + 1 / 10 ^ 10)) ∧
    (∀ (m k : Nat) (logf : ℚ → ℚ) (t : Mat m k), 0 < m →
       (∀ i, ∑ j, t i j = 1) →
       LNN.CRE logf (Matrix.of fun _ _ => ((k : ℚ))⁻¹) t
         = -logf ((k : ℚ)⁻¹ + 1 / 10 ^ 10)) := by
  have hrow : ∀ (m k : Nat) (t : Mat m k) (c : ℚ),
      (∀ i, ∑ j, t i j = 1) →
      ∀ i : Fin m, (∑ j, t i j * c) = c := by
    intro m k t c hsum i
    rw [← Finset.sum_mul, hsum i, one_mul]
  have hdiv : ∀ (m : Nat) (c : ℚ), 0 < m →
      -((∑ _i : Fin m, c) / (m : ℚ)) = -c := by
    intro m c hm
    have hm2 : (m : ℚ) ≠ 0 := Nat.cast_ne_zero.mpr (by omega)
    rw [Finset.sum_const, Finset.card_univ, Fintype.card_fin, nsmul_eq_mul,
      mul_div_cancel_left₀ c hm2]
  refine ⟨fun _ _ _ _ _ => rfl, fun _ _ _ _ _ => rfl, ?_, ?_⟩
  · intro m k logf t hm h01 hsum
    unfold LNN.CRE
    have hpt : ∀ i : Fin m, (∑ j, t i j * logf (t i j + 1 / 10 ^ 10))
        = logf (1 + 1 / 10 ^ 10) := by
      intro i
      have hcongr : ∀ j ∈ Finset.univ,
          t i j * logf (t i j + 1 / 10 ^ 10)
            = t i j * logf (1 + 1 / 10 ^ 10) := by
        intro j _
        rcases h01 i j with h | h
        · rw [h, zero_mul, zero_mul]
        · rw [h]
      rw [Finset.sum_congr rfl hcongr, hrow m k t _ hsum i]
    rw [Finset.sum_congr rfl fun i _ => hpt i]
    exact hdiv m _ hm
  · intro m k logf t hm hsum
    unfold LNN.CRE
    simp only [Matrix.of_apply]
    rw [Finset.sum_congr rfl fun i _ => hrow m k t
      (logf ((k : ℚ)⁻¹ + 1 / 10 ^ 10)) hsum i]
    exact hdiv m _ hm

/-- Witness for the loss theorem: one row and two classes, label one-hot at
the first class, log instantiated at the identity; the perfect prediction
costs -(1 + 1e-10). -/
theorem CRE_formulas_witness :
    ((0 : Nat) < 1 ∧
     (∀ i j, (!![(1 : ℚ), 0] : Mat 1 2) i j = 0 ∨
             (!![(1 : ℚ), 0] : Mat 1 2) i j = 1) ∧
     (∀ i : Fin 1, ∑ j, (!![(1 : ℚ), 0] : Mat 1 2) i j = 1)) ∧
    LNN.CRE id (!![(1 : ℚ), 0]) (!![(1 : ℚ), 0])
      = -(1 + 1 / 10 ^ 10 : ℚ) := by
  have hsum : ∀ i : Fin 1, ∑ j, (!![(1 : ℚ), 0] : Mat 1 2) i j = 1 := by
    intro i
    have hi : i = 0 := Subsingleton.elim i 0
    subst hi
    rw [Fin.sum_univ_two]
    norm_num
  refine ⟨⟨by norm_num, by decide, hsum⟩, ?_⟩
  have h := CRE_formulas.2.2.1 1 2 id (!![(1 : ℚ), 0])
    (by norm_num) (by decide) hsum
  simpa using h

/-- Claim C8, evaluated at the failing input: on 6 rows with predicted
classes [0,0,0,2,2,2] and actual classes [0,1,0,2,2,2] over 3 classes, the
confusion is TP=[2,0,3], FP=[1,0,0]; class 1 is never predicted, so the
source divides 0 by 0 and raises (the none outcome), whereas the
specified metric defines that class precision as 0, giving per-class
precisions [2/3, 0, 1] and average 5/9, about 0.556. -/
theorem precision_div_zero_at_unpredicted_class :
    LNN.precision 3 [0, 0, 0, 2, 2, 2] [0, 1, 0, 2, 2, 2] = none ∧
    perClassPrecision 3 [0, 0, 0, 2, 2, 2] [0, 1, 0, 2, 2, 2]
      = [2 / 3, 0, 1] ∧
    precisionSpec 3 [0, 0, 0, 2, 2, 2] [0, 1, 0, 2, 2, 2] = 5 / 9 := by
  have h0 : TPcount 0 [0, 0, 0, 2, 2, 2] [0, 1, 0, 2, 2, 2] = 2 := rfl
  have h1 : FPcount 0 [0, 0, 0, 2, 2, 2] [0, 1, 0, 2, 2, 2] = 1 := rfl
  have h2 : TPcount 1 [0, 0, 0, 2, 2, 2] [0, 1, 0, 2, 2, 2] = 0 := rfl
  have h3 : FPcount 1 [0, 0, 0, 2, 2, 2] [0, 1, 0, 2, 2, 2] = 0 := rfl
  have h4 : TPcount 2 [0, 0, 0, 2, 2, 2] [0, 1, 0, 2, 2, 2] = 3 := rfl
  have h5 : FPcount 2 [0, 0, 0, 2, 2, 2] [0, 1, 0, 2, 2, 2] = 0 := rfl
  refine ⟨by decide, ?_, ?_⟩
  · simp only [perClassPrecision, List.range_succ, List.range_zero,
      List.nil_append, List.cons_append, List.map_cons, List.map_nil,
      h0, h1, h2, h3, h4, h5]
    norm_num
  · simp only [precisionSpec, List.range_succ, List.range_zero,
      List.nil_append, List.cons_append, List.map_cons, List.map_nil,
      List.sum_cons, List.sum_nil, h0, h1, h2, h3, h4, h5]
    norm_num

/-- Writing at one position twice keeps only the second write. -/
theorem list_set_set (l : List ℚ) (n : Nat) (a b : ℚ) :
    (l.set n a).set n b = l.set n b := by
  induction l generalizing n with
  | nil => rfl
  | cons x xs ih =>
    cases n with
    | zero => rfl
    | succ n => simp [List.set, ih]

/-- Writing back the value already stored leaves the list unchanged. -/
theorem list_set_getD_self (l : List ℚ) (n : Nat) :
    l.set n (l.getD n 0) = l := by
  induction l generalizing n with
  | nil => rfl
  | cons x xs ih =>
    cases n with
    | zero => rfl
    | succ n =>
      show x :: xs.set n (xs.getD n 0) = x :: xs
      rw [ih]

/-- Element writes at one position collapse to the last one. -/
theorem setElem_setElem (ps : List (List ℚ)) (k i : Nat) (a b : ℚ) :
    setElem (setElem ps k i a) k i b = setElem ps k i b := by
  induction ps generalizing k with
  | nil => rfl
  | cons r tl ih =>
    cases k with
    | zero =>
      simp only [setElem, List.getD_cons_zero, List.set]
      rw [list_set_set]
    | succ k =>
      simp only [setElem, List.getD_cons_succ, List.set]
      have := ih k
      simp only [setElem] at this
      rw [this]

/-- Writing back the original element restores the parameter map. -/
theorem setElem_restore (ps : List (List ℚ)) (k i : Nat) :
    setElem ps k i ((ps.getD k []).getD i 0) = ps := by
  induction ps generalizing k with
  | nil => rfl
  | cons r tl ih =>
    cases k with
    | zero =>
      simp only [setElem, List.getD_cons_zero, List.set]
      rw [list_set_getD_self]
    | succ k =>
      simp only [setElem, List.getD_cons_succ, List.set]
      have := ih k
      simp only [setElem] at this
      rw [this]

/-- After processing one element the parameter map is fully restored. -/
theorem ngElem_snd (f : List (List ℚ) → ℚ) (ps : List (List ℚ))
    (k i : Nat) : (ngElem f ps k i).2 = ps := by
  simp only [ngElem]
  rw [setElem_setElem, setElem_setElem, setElem_restore]

/-- After processing a run of elements the parameter map is restored. -/
theorem ngRow_snd (f : List (List ℚ) → ℚ) (k : Nat) :
    ∀ (cnt i : Nat) (ps : List (List ℚ)), (ngRow f k cnt i ps).2 = ps := by
  intro cnt
  induction cnt with
  | zero => intro i ps; rfl
  | succ c ih =>
    intro i ps
    simp only [ngRow]
    rw [ih, ngElem_snd]

/-- After processing a run of parameter keys the map is restored. -/
theorem ngAll_snd (f : List (List ℚ) → ℚ) :
    ∀ (kcnt k : Nat) (ps : List (List ℚ)), (ngAll f kcnt k ps).2 = ps := by
  intro kcnt
  induction kcnt with
  | zero => intro k ps; rfl
  | succ c ih =>
    intro k ps
    simp only [ngAll]
    rw [ih, ngRow_snd]

/-- Claim C9: for every loss function and parameter map, after the numerical
gradient oracle gradient_ng returns (in either network), every parameter
tensor equals its value before the call: each element is perturbed by
plus and minus 1e-4 only temporarily and the saved original is written
back before the iterator moves on. -/
theorem gradient_ng_restores_para (f g : List (List ℚ) → ℚ)
    (ps qs : List (List ℚ)) :
    (LNN.gradient_ng f ps).2 = ps ∧ (QNN.gradient_ng g qs).2 = qs := by
  constructor
  · exact ngAll_snd f ps.length 0 ps
  · exact ngAll_snd g qs.length 0 qs

/-- Counterexample to claim C10 as stated: on the 1-D input [0] the row
maximum is 0, so the in-place subtraction writes the original values back
and after the call the argument still holds its original values. -/
theorem softmax_arg_unchanged_at_zero_max :
    (LNN.softmax1 id [0]).2 = [0] := by
  have h : maxL [(0 : ℚ)] = 0 := by simp [maxL]
  show [(0 : ℚ) - maxL [0]] = [0]
  rw [h, sub_zero]

/-- Claim C10, amended: softmax overwrites its argument in place with
x - rowmax (for a 2-D input, row by row through the transposed view of the
caller array); the argument no longer holds its original values whenever
its maximum is nonzero, while an input whose maximum is 0 is written back
unchanged. -/
theorem softmax_mutates_argument :
    (∀ (expf : ℚ → ℚ) (x : List ℚ),
       (LNN.softmax1 expf x).2 = x.map fun v => v - maxL x) ∧
    (∀ (expf : ℚ → ℚ) (X : List (List ℚ)),
       (LNN.softmax2 expf X).2
         = X.map fun row => row.map fun v => v - maxL row) ∧
    (∀ (expf : ℚ → ℚ) (a : ℚ) (t : List ℚ), maxL (a :: t) ≠ 0 →
       (LNN.softmax1 expf (a :: t)).2 ≠ a :: t) := by
  refine ⟨fun _ _ => rfl, fun _ _ => rfl, ?_⟩
  intro expf a t hmax heq
  apply hmax
  have h2 : ((a :: t).map fun v => v - maxL (a :: t)) = a :: t := heq
  rw [List.map_cons] at h2
  have h3 : a - maxL (a :: t) = a := (List.cons.injEq _ _ _ _ ▸ h2).1
  linarith

/-- Witness for the softmax mutation theorem: the singleton input [1] has
maximum 1, and after the call the argument no longer holds [1]. -/
theorem softmax_mutates_argument_witness :
    maxL [1] ≠ 0 ∧ (LNN.softmax1 id [1]).2 ≠ [(1 : ℚ)] :=
  ⟨by norm_num [maxL], softmax_mutates_argument.2.2 id 1 [] (by norm_num [maxL])⟩
